import Mathlib

/-!
Verification of the radial community-layout core of
`vrchat_friend_network_visualizer.py` (method `create_visualization`).

The layout consumes an undirected graph and a detector partition
(`community_map`, produced by the external Louvain / label-propagation
libraries) and computes, per node: a primary community, a cross-community
connectivity value, a cohesion value, a target radius, a visual size, an
angular sector per community, anchor nodes, and final positions via a
60-pass relaxation and an 80-pass collision loop.

Conventions used throughout this development:
* node identifiers are `ℕ`; detector community labels are `ℤ`
  (the source uses `-1` as the default label for a missing entry);
* Python dicts that are built by repeated `d[k] = d.get(k, 0) + 1` are
  modelled as association lists in key-insertion order (`bumpCount`);
* exact rational / real arithmetic replaces floating point;
* geometric phases that call `math.sqrt` / `math.atan2` / trigonometric
  functions are modelled over `ℝ`;
* the scattered `random.uniform` calls are modelled as explicit oracle
  arguments supplying the drawn values.
-/

/-- The input graph: node identifiers plus undirected edges in insertion
order, mirroring the networkx graph built by the source.  Edge weights are
never consulted by the layout, so they are omitted. -/
structure NetGraph where
  nodes : List ℕ
  edges : List (ℕ × ℕ)

/-- `list(self.graph.neighbors(n))`: the neighbors of `n` in edge-insertion
order (networkx adjacency order for a simple graph built by adding the
edge list in order). -/
def neighborsOf (g : NetGraph) (n : ℕ) : List ℕ :=
  g.edges.filterMap (fun e =>
    if e.1 = n then some e.2 else if e.2 = n then some e.1 else none)

/-- `self.graph.degree(n)`: for a simple graph without self-loops this is
the number of neighbors. -/
def degOf (g : NetGraph) (n : ℕ) : ℕ := (neighborsOf g n).length

/-- `connected_nodes = [n for n in all_nodes if degree(n) > 0]` (line 403). -/
def connectedNodes (g : NetGraph) : List ℕ :=
  g.nodes.filter (fun n => 0 < degOf g n)

/-- `isolated_nodes = [n for n in layout_nodes if degree(n) == 0]` (line 630). -/
def isolatedNodes (g : NetGraph) : List ℕ :=
  g.nodes.filter (fun n => degOf g n = 0)

/-- `community_map.get(neighbor, -1)` (line 448): detector label of a node,
defaulting to `-1` when the node is missing from the partition. -/
def cmapGet (cmap : List (ℕ × ℤ)) (n : ℕ) : ℤ :=
  ((cmap.lookup n).getD (-1))

/-- The detector labels of the neighbors of `n`, in neighbor order
(line 447-449 iterates the neighbors and reads `community_map.get`). -/
def nbrLabels (g : NetGraph) (cmap : List (ℕ × ℤ)) (n : ℕ) : List ℤ :=
  (neighborsOf g n).map (cmapGet cmap)

/-- One step of `d[c] = d.get(c, 0) + 1` on a Python dict represented as an
association list in key-insertion order. -/
def bumpCount : List (ℤ × ℕ) → ℤ → List (ℤ × ℕ)
  | [], c => [(c, 1)]
  | (d, k) :: rest, c =>
      if c = d then (d, k + 1) :: rest else (d, k) :: bumpCount rest c

/-- `algo_community_connections` (lines 446-449): the multiset of labels
counted into a dict, kept in key-insertion order. -/
def commCounts (ls : List ℤ) : List (ℤ × ℕ) := ls.foldl bumpCount []

/-- Python `max(items, key=lambda x: x[1])` over the dict items: scans left
to right and keeps the current item unless a strictly larger value appears,
so the FIRST item with the maximal value wins. -/
def maxPair : (ℤ × ℕ) → List (ℤ × ℕ) → (ℤ × ℕ)
  | best, [] => best
  | best, p :: rest => maxPair (if best.2 < p.2 then p else best) rest

/-- `dict.get(c, 0)` on an association list. -/
def lookupD (l : List (ℤ × ℕ)) (c : ℤ) : ℕ := ((l.lookup c).getD 0)

/-- `node_primary_community` (lines 446-452): the community holding the most
of `n`'s neighbors, ties resolved by Python `max` (first maximal item in
dict insertion order).  `none` exactly when `n` has no neighbors (the
source `continue`s and leaves the dict without an entry). -/
def primaryCommunityOpt (g : NetGraph) (cmap : List (ℕ × ℤ)) (n : ℕ) :
    Option ℤ :=
  match commCounts (nbrLabels g cmap n) with
  | [] => none
  | p :: rest => some (maxPair p rest).1

/-- `node_cross_connectivity` (lines 454-457): fraction of neighbors whose
DETECTOR label differs from the node's primary community; this is the
`crossRatio` the output reports (line 2203, default 0 when absent). -/
def crossConnectivity (g : NetGraph) (cmap : List (ℕ × ℤ)) (n : ℕ) : ℚ :=
  let ns := neighborsOf g n
  match commCounts (nbrLabels g cmap n) with
  | [] => 0
  | p :: rest =>
      ((ns.length : ℚ) - lookupD (commCounts (nbrLabels g cmap n))
        (maxPair p rest).1) / ns.length

/-- `temp_node_cohesion` (lines 564-575): fraction of neighbors whose own
PRIMARY community equals the node's primary community; 0 for nodes with no
primary community or no neighbors. -/
def nodeCohesion (g : NetGraph) (cmap : List (ℕ × ℤ)) (n : ℕ) : ℚ :=
  match primaryCommunityOpt g cmap n with
  | none => 0
  | some c =>
      let ns := neighborsOf g n
      if ns = [] then 0
      else ((ns.filter
              (fun m => primaryCommunityOpt g cmap m = some c)).length : ℚ)
            / ns.length

/- ### Counting lemmas for the dict model -/

theorem lookupD_bumpCount_self (l : List (ℤ × ℕ)) (c : ℤ) :
    lookupD (bumpCount l c) c = lookupD l c + 1 := by
  induction l with
  | nil => simp [bumpCount, lookupD, List.lookup]
  | cons p rest ih =>
      obtain ⟨d, k⟩ := p
      by_cases h : c = d
      · subst h
        simp [bumpCount, lookupD, List.lookup]
      · have hbeq : (c == d) = false := by
          simpa using h
        simp [bumpCount, lookupD, List.lookup, h, hbeq] at ih ⊢
        exact ih

theorem lookupD_bumpCount_ne (l : List (ℤ × ℕ)) (c d : ℤ) (h : c ≠ d) :
    lookupD (bumpCount l d) c = lookupD l c := by
  induction l with
  | nil =>
      have hbeq : (c == d) = false := by simpa using h
      simp [bumpCount, lookupD, List.lookup, hbeq]
  | cons p rest ih =>
      obtain ⟨e, k⟩ := p
      by_cases hde : d = e
      · subst hde
        have hbeq : (c == d) = false := by simpa using h
        simp [bumpCount, lookupD, List.lookup, hbeq]
      · by_cases hce : c = e
        · subst hce
          simp [bumpCount, lookupD, List.lookup, hde]
        · have hbeq : (c == e) = false := by simpa using hce
          simp [bumpCount, lookupD, List.lookup, hde, hbeq] at ih ⊢
          exact ih

theorem lookupD_foldl_bump (ls : List ℤ) :
    ∀ acc c, lookupD (ls.foldl bumpCount acc) c = lookupD acc c + ls.count c := by
  induction ls with
  | nil => intro acc c; simp
  | cons x xs ih =>
      intro acc c
      by_cases h : c = x
      · subst h
        simp only [List.foldl_cons, ih, lookupD_bumpCount_self]
        rw [List.count_cons_self]
        omega
      · have hbeq : (c == x) = false := by simpa using h
        simp only [List.foldl_cons, ih, lookupD_bumpCount_ne _ _ _ h]
        rw [List.count_cons_of_ne h]

/-- `algo_community_connections.get(c, 0)` equals the number of neighbors
carrying detector label `c`. -/
theorem lookupD_commCounts (ls : List ℤ) (c : ℤ) :
    lookupD (commCounts ls) c = ls.count c := by
  have h := lookupD_foldl_bump ls [] c
  simpa [commCounts, lookupD, List.lookup] using h

theorem keys_bumpCount (l : List (ℤ × ℕ)) (c : ℤ) :
    (bumpCount l c).map Prod.fst =
      if c ∈ l.map Prod.fst then l.map Prod.fst
      else l.map Prod.fst ++ [c] := by
  induction l with
  | nil => simp [bumpCount]
  | cons p rest ih =>
      obtain ⟨d, k⟩ := p
      by_cases h : c = d
      · subst h
        simp [bumpCount]
      · simp [bumpCount, h, ih]
        by_cases hm : c ∈ rest.map Prod.fst
        · simp [hm, Ne.symm h]
        · simp [hm, Ne.symm h, h]

theorem mem_keys_foldl_bump (ls : List ℤ) :
    ∀ (acc : List (ℤ × ℕ)) (c : ℤ),
      c ∈ (ls.foldl bumpCount acc).map Prod.fst ↔
        c ∈ acc.map Prod.fst ∨ c ∈ ls := by
  induction ls with
  | nil => intro acc c; simp
  | cons x xs ih =>
      intro acc c
      rw [List.foldl_cons, ih]
      rw [keys_bumpCount]
      by_cases hx : x ∈ acc.map Prod.fst
      · simp only [hx, if_pos]
        constructor
        · rintro (h | h)
          · exact Or.inl h
          · exact Or.inr (List.mem_cons_of_mem _ h)
        · rintro (h | h)
          · exact Or.inl h
          · rcases List.mem_cons.1 h with h | h
            · subst h; exact Or.inl hx
            · exact Or.inr h
      · simp only [hx, if_neg, not_false_iff, List.mem_append,
          List.mem_singleton]
        constructor
        · rintro ((h | h) | h)
          · exact Or.inl h
          · subst h; exact Or.inr (List.mem_cons_self _ _)
          · exact Or.inr (List.mem_cons_of_mem _ h)
        · rintro (h | h)
          · exact Or.inl (Or.inl h)
          · rcases List.mem_cons.1 h with h | h
            · subst h; exact Or.inl (Or.inr rfl)
            · exact Or.inr h

/-- The dict keys are exactly the labels that occur. -/
theorem mem_keys_commCounts (ls : List ℤ) (c : ℤ) :
    c ∈ (commCounts ls).map Prod.fst ↔ c ∈ ls := by
  have h := mem_keys_foldl_bump ls [] c
  simpa [commCounts] using h

theorem keys_nodup_bumpCount (l : List (ℤ × ℕ)) (c : ℤ)
    (h : (l.map Prod.fst).Nodup) : ((bumpCount l c).map Prod.fst).Nodup := by
  rw [keys_bumpCount]
  by_cases hm : c ∈ l.map Prod.fst
  · simpa [hm] using h
  · simp only [hm, if_neg, not_false_iff]
    rw [List.nodup_append]
    exact ⟨h, List.nodup_singleton c, by simpa using hm⟩

theorem keys_nodup_foldl_bump (ls : List ℤ) :
    ∀ acc : List (ℤ × ℕ), (acc.map Prod.fst).Nodup →
      ((ls.foldl bumpCount acc).map Prod.fst).Nodup := by
  induction ls with
  | nil => intro acc h; simpa using h
  | cons x xs ih =>
      intro acc h
      exact ih _ (keys_nodup_bumpCount acc x h)

theorem keys_nodup_commCounts (ls : List ℤ) :
    ((commCounts ls).map Prod.fst).Nodup :=
  keys_nodup_foldl_bump ls [] (by simp)

/-- On an association list with distinct keys, each entry's value is what
lookup returns at its key. -/
theorem lookupD_of_mem_of_nodup (l : List (ℤ × ℕ))
    (h : (l.map Prod.fst).Nodup) :
    ∀ p ∈ l, lookupD l p.1 = p.2 := by
  induction l with
  | nil => intro p hp; cases hp
  | cons q rest ih =>
      intro p hp
      obtain ⟨d, k⟩ := q
      rcases List.mem_cons.1 hp with hp | hp
      · subst hp
        simp [lookupD, List.lookup]
      · have hkeys : (rest.map Prod.fst).Nodup := (List.nodup_cons.1 h).2
        have hne : p.1 ≠ d := by
          intro hpd
          have hdmem : d ∈ rest.map Prod.fst := by
            rw [← hpd]
            exact List.mem_map_of_mem Prod.fst hp
          exact (List.nodup_cons.1 h).1 hdmem
        have hbeq : (p.1 == d) = false := by simpa using hne
        simp only [lookupD, List.lookup, hbeq]
        exact ih hkeys p hp

/-- Every dict item of `commCounts` records the exact multiplicity of its
label. -/
theorem snd_eq_count_of_mem_commCounts (ls : List ℤ) (p : ℤ × ℕ)
    (hp : p ∈ commCounts ls) : p.2 = ls.count p.1 := by
  have h1 := lookupD_of_mem_of_nodup (commCounts ls)
    (keys_nodup_commCounts ls) p hp
  rw [lookupD_commCounts] at h1
  omega

theorem commCounts_ne_nil (ls : List ℤ) (h : ls ≠ []) :
    commCounts ls ≠ [] := by
  intro hnil
  obtain ⟨x, xs, rfl⟩ := List.exists_cons_of_ne_nil h
  have hx : x ∈ (commCounts (x :: xs)).map Prod.fst := by
    rw [mem_keys_commCounts]
    exact List.mem_cons_self _ _
  rw [hnil] at hx
  cases hx

/- ### Lemmas about Python `max(items, key=...)` -/

theorem maxPair_mem : ∀ (l : List (ℤ × ℕ)) (b : ℤ × ℕ),
    maxPair b l ∈ b :: l := by
  intro l
  induction l with
  | nil => intro b; simp [maxPair]
  | cons p rest ih =>
      intro b
      by_cases h : b.2 < p.2
      · have := ih p
        simp only [maxPair, h, if_pos]
        rcases List.mem_cons.1 this with h1 | h1
        · rw [h1]; exact List.mem_cons_of_mem _ (List.mem_cons_self _ _)
        · exact List.mem_cons_of_mem _ (List.mem_cons_of_mem _ h1)
      · have := ih b
        simp only [maxPair, h, if_neg, not_false_iff]
        rcases List.mem_cons.1 this with h1 | h1
        · rw [h1]; exact List.mem_cons_self _ _
        · exact List.mem_cons_of_mem _ (List.mem_cons_of_mem _ h1)

theorem le_maxPair : ∀ (l : List (ℤ × ℕ)) (b : ℤ × ℕ),
    ∀ p ∈ b :: l, p.2 ≤ (maxPair b l).2 := by
  intro l
  induction l with
  | nil =>
      intro b p hp
      rcases List.mem_cons.1 hp with h | h
      · rw [h]; simp [maxPair]
      · cases h
  | cons q rest ih =>
      intro b p hp
      by_cases h : b.2 < q.2
      · simp only [maxPair, h, if_pos]
        rcases List.mem_cons.1 hp with h1 | h1
        · rw [h1]
          have := ih q q (List.mem_cons_self _ _)
          omega
        · rcases List.mem_cons.1 h1 with h2 | h2
          · rw [h2]; exact ih q q (List.mem_cons_self _ _)
          · exact ih q p (List.mem_cons_of_mem _ h2)
      · simp only [maxPair, h, if_neg, not_false_iff]
        rcases List.mem_cons.1 hp with h1 | h1
        · rw [h1]; exact ih b b (List.mem_cons_self _ _)
        · rcases List.mem_cons.1 h1 with h2 | h2
          · rw [h2]
            have := ih b b (List.mem_cons_self _ _)
            omega
          · exact ih b p (List.mem_cons_of_mem _ h2)

/-- Python `max` keeps the first maximal item: if nothing later is strictly
larger, the initial item is returned unchanged. -/
theorem maxPair_of_forall_le : ∀ (l : List (ℤ × ℕ)) (b : ℤ × ℕ),
    (∀ p ∈ l, p.2 ≤ b.2) → maxPair b l = b := by
  intro l
  induction l with
  | nil => intro b _; rfl
  | cons q rest ih =>
      intro b h
      have hq : q.2 ≤ b.2 := h q (List.mem_cons_self _ _)
      have hnot : ¬ b.2 < q.2 := by omega
      simp only [maxPair, hnot, if_neg, not_false_iff]
      exact ih b (fun p hp => h p (List.mem_cons_of_mem _ hp))

/-- Full characterization of Python `max` over the dict items: the result
splits the item list into a prefix of items with STRICTLY smaller values,
the result itself, and a suffix.  Together with `le_maxPair` (no item
exceeds the result) this says the result is exactly the FIRST item
attaining the maximal value — covering ties however late the maximum is
first attained. -/
theorem maxPair_first : ∀ (l : List (ℤ × ℕ)) (b : ℤ × ℕ),
    ∃ pre post, b :: l = pre ++ maxPair b l :: post ∧
      ∀ q ∈ pre, q.2 < (maxPair b l).2 := by
  intro l
  induction l with
  | nil =>
      intro b
      exact ⟨[], [], rfl, by intro q hq; cases hq⟩
  | cons p rest ih =>
      intro b
      by_cases hb : b.2 < p.2
      · have hcomp : maxPair b (p :: rest) = maxPair p rest := by
          simp [maxPair, hb]
        obtain ⟨pre, post, hdec, hpre⟩ := ih p
        refine ⟨b :: pre, post, ?_, ?_⟩
        · rw [hcomp, List.cons_append, ← hdec]
        · intro q hq
          rcases List.mem_cons.1 hq with rfl | hq
          · rw [hcomp]
            have hple : p.2 ≤ (maxPair p rest).2 :=
              le_maxPair rest p p (List.mem_cons_self _ _)
            omega
          · rw [hcomp]
            exact hpre q hq
      · have hcomp : maxPair b (p :: rest) = maxPair b rest := by
          simp [maxPair, hb]
        obtain ⟨pre, post, hdec, hpre⟩ := ih b
        cases pre with
        | nil =>
            simp only [List.nil_append] at hdec
            have hb_eq : maxPair b rest = b := by
              injection hdec with h1 _
              exact h1.symm
            refine ⟨[], p :: rest, ?_, ?_⟩
            · rw [hcomp, hb_eq, List.nil_append]
            · intro q hq
              cases hq
        | cons x pre' =>
            rw [List.cons_append] at hdec
            injection hdec with hx hrest
            have hbval : b.2 < (maxPair b rest).2 := by
              have hxv := hpre x (List.mem_cons_self _ _)
              rw [← hx] at hxv
              exact hxv
            refine ⟨b :: p :: pre', post, ?_, ?_⟩
            · rw [hcomp, List.cons_append, List.cons_append, ← hrest]
            · intro q hq
              rcases List.mem_cons.1 hq with rfl | hq
              · rw [hcomp]
                exact hbval
              · rcases List.mem_cons.1 hq with rfl | hq
                · rw [hcomp]
                  have hpb : q.2 ≤ b.2 := not_lt.1 hb
                  omega
                · rw [hcomp]
                  exact hpre q (List.mem_cons_of_mem _ hq)

/- ### Claims C4 and C3 -/

/-- Concrete graph refuting C4's tie-break clause: node 1 has neighbors 2
and 3 (in that order), carrying detector labels 1 and 0. -/
def g4 : NetGraph := ⟨[1, 2, 3], [(1, 2), (1, 3)]⟩

def cmap4 : List (ℕ × ℤ) := [(1, 0), (2, 1), (3, 0)]

/-- C4 counterexample: node 1's two neighbor communities tie at one neighbor
each, yet the code selects community 1 (the label of the first-listed
neighbor), not the lowest label 0. -/
theorem C4_counterexample :
    primaryCommunityOpt g4 cmap4 1 = some 1 ∧
      (nbrLabels g4 cmap4 1).count 0 = (nbrLabels g4 cmap4 1).count 1 ∧
      (0 : ℤ) < 1 := by
  decide

/-- C4 (amended): `primaryCommunity(n)` is a community label occurring among
`n`'s neighbors whose neighbor count is maximal; whenever two or more
communities tie for the greatest neighbor count, the one whose first
neighbor occurrence comes earliest (dict insertion order under Python
`max`) is chosen, not the one with the lowest integer label.  First
conjunct: occurrence and maximality over all labels.  Second conjunct: the
chosen entry of the neighbor-count dict is preceded only by entries with
STRICTLY smaller counts (and, by the first conjunct, followed by none with
a larger one) — so among all maximal-count communities the first-inserted
one is selected, wherever in the dict the maximum is first attained. -/
theorem C4_theorem :
    (∀ (g : NetGraph) (cmap : List (ℕ × ℤ)) (n : ℕ) (c : ℤ),
        primaryCommunityOpt g cmap n = some c →
          c ∈ nbrLabels g cmap n ∧
            ∀ d : ℤ, (nbrLabels g cmap n).count d ≤ (nbrLabels g cmap n).count c) ∧
    (∀ (g : NetGraph) (cmap : List (ℕ × ℤ)) (n : ℕ) (p : ℤ × ℕ)
        (rest : List (ℤ × ℕ)),
        commCounts (nbrLabels g cmap n) = p :: rest →
          primaryCommunityOpt g cmap n = some (maxPair p rest).1 ∧
            ∃ pre post, p :: rest = pre ++ maxPair p rest :: post ∧
              ∀ q ∈ pre, q.2 < (maxPair p rest).2) := by
  constructor
  · intro g cmap n c hc
    set ls := nbrLabels g cmap n with hls
    rcases hcc : commCounts ls with _ | ⟨p, rest⟩
    · rw [primaryCommunityOpt, ← hls, hcc] at hc
      cases hc
    · rw [primaryCommunityOpt, ← hls, hcc] at hc
      have hmem : maxPair p rest ∈ p :: rest := maxPair_mem rest p
      rw [← hcc] at hmem
      have hc1 : (maxPair p rest).1 = c := by
        injection hc
      constructor
      · rw [← hc1, ← mem_keys_commCounts ls]
        exact List.mem_map_of_mem Prod.fst hmem
      · intro d
        by_cases hd : d ∈ ls
        · have hmem2 : d ∈ (commCounts ls).map Prod.fst :=
            (mem_keys_commCounts ls d).2 hd
          rcases List.mem_map.1 hmem2 with ⟨q, hq, hq1⟩
          have hqc : q.2 = ls.count d := by
            rw [← hq1]; exact snd_eq_count_of_mem_commCounts ls q hq
          have hcc2 : (maxPair p rest).2 = ls.count c := by
            rw [← hc1]
            exact snd_eq_count_of_mem_commCounts ls _ hmem
          have hle : q.2 ≤ (maxPair p rest).2 := by
            apply le_maxPair rest p
            rw [← hcc]; exact hq
          omega
        · have : ls.count d = 0 := List.count_eq_zero.2 hd
          omega
  · intro g cmap n p rest hcc
    have h1 : primaryCommunityOpt g cmap n = some (maxPair p rest).1 := by
      rw [primaryCommunityOpt, hcc]
    exact ⟨h1, maxPair_first rest p⟩

/-- A hub whose five neighbors carry labels `[5, 7, 7, 9, 9]`: the
neighbor-count dict is `[(5,1), (7,2), (9,2)]`, a tie (7 vs 9) whose
maximal count is first attained at the SECOND dict key. -/
def g6 : NetGraph := ⟨[1, 2, 3, 4, 5, 6], [(1, 2), (1, 3), (1, 4), (1, 5), (1, 6)]⟩

def cmap6 : List (ℕ × ℤ) := [(2, 5), (3, 7), (4, 7), (5, 9), (6, 9)]

/-- C4 witness: on the later-key tie `[(5,1), (7,2), (9,2)]` the amended
theorem yields primary community 7 — the first-inserted of the two tied
communities, even though the first dict key 5 is not maximal. -/
theorem C4_witness :
    primaryCommunityOpt g6 cmap6 1 = some 7 ∧
      (nbrLabels g6 cmap6 1).count 7 = (nbrLabels g6 cmap6 1).count 9 ∧
      (7 : ℤ) ∈ nbrLabels g6 cmap6 1 := by
  have h := C4_theorem.2 g6 cmap6 1 (5, 1) [(7, 2), (9, 2)] (by decide)
  refine ⟨?_, by decide, by decide⟩
  rw [h.1]
  decide

/-- Concrete graph refuting C3: node 4 is a hub whose neighbors 1, 2, 3
carry detector labels 0, 1, 1, so node 4's primary community (1) differs
from its detector label (0); node 1's sole neighbor is 4. -/
def g3 : NetGraph := ⟨[1, 2, 3, 4], [(4, 1), (4, 2), (4, 3)]⟩

def cmap3 : List (ℕ × ℤ) := [(1, 0), (4, 0), (2, 1), (3, 1)]

/-- C3 counterexample: for connected node 1 the reported cross-community
value is 0 (its sole neighbor 4 carries detector label 0 = node 1's primary
community), yet 1 − cohesion = 1 because neighbor 4's own primary community
is 1.  The two quantities the claim equates are computed from different
partitions and disagree. -/
theorem crossConnectivity_g3_node1 : crossConnectivity g3 cmap3 1 = 0 := by
  have hcc : commCounts (nbrLabels g3 cmap3 1) = [(0, 1)] := by decide
  have hn : neighborsOf g3 1 = [4] := by decide
  have hl : lookupD [(0, 1)] (maxPair (0, 1) []).1 = 1 := by
    decide
  simp only [crossConnectivity, hcc, hn, hl]
  norm_num

theorem nodeCohesion_g3_node1 : nodeCohesion g3 cmap3 1 = 0 := by
  have hp : primaryCommunityOpt g3 cmap3 1 = some 0 := by decide
  have hn : neighborsOf g3 1 = [4] := by decide
  have hp4 : primaryCommunityOpt g3 cmap3 4 = some 1 := by decide
  simp only [nodeCohesion, hp, hn, List.filter, hp4]
  norm_num

theorem C3_counterexample :
    1 ∈ connectedNodes g3 ∧
      crossConnectivity g3 cmap3 1 ≠ 1 - nodeCohesion g3 cmap3 1 := by
  refine ⟨by decide, ?_⟩
  rw [crossConnectivity_g3_node1, nodeCohesion_g3_node1]
  norm_num

/-- C3 (amended): the `crossRatio` reported in the output equals 1 minus the
fraction of the node's neighbors whose DETECTOR community label equals the
node's primary community — not 1 minus the node's cohesion, which counts
neighbors by the neighbors' own primary communities and can differ. -/
theorem C3_theorem (g : NetGraph) (cmap : List (ℕ × ℤ)) (n : ℕ) (c : ℤ)
    (hc : primaryCommunityOpt g cmap n = some c) :
    crossConnectivity g cmap n =
      1 - ((nbrLabels g cmap n).count c : ℚ) / (neighborsOf g n).length := by
  rcases hcc : commCounts (nbrLabels g cmap n) with _ | ⟨p, rest⟩
  · rw [primaryCommunityOpt, hcc] at hc
    cases hc
  · rw [primaryCommunityOpt, hcc] at hc
    have hc1 : (maxPair p rest).1 = c := by injection hc
    have hlen : (neighborsOf g n).length = (nbrLabels g cmap n).length := by
      rw [nbrLabels, List.length_map]
    have hne : nbrLabels g cmap n ≠ [] := by
      intro h
      rw [h] at hcc
      simp [commCounts] at hcc
    have hlenpos : 0 < (nbrLabels g cmap n).length := List.length_pos.2 hne
    have hq : (((nbrLabels g cmap n).length : ℚ)) ≠ 0 := by
      exact_mod_cast Nat.pos_iff_ne_zero.1 hlenpos
    have hlook : lookupD (p :: rest) c = (nbrLabels g cmap n).count c := by
      rw [← hcc]
      exact lookupD_commCounts _ _
    simp only [crossConnectivity, hcc, hc1, hlook, hlen]
    field_simp

/-- C3 witness: the amended formula evaluated at the hub node 4 of `g3`
(primary community 1, two of three neighbor labels equal to 1). -/
theorem C3_witness :
    crossConnectivity g3 cmap3 4 =
      1 - ((nbrLabels g3 cmap3 4).count 1 : ℚ) / (neighborsOf g3 4).length :=
  C3_theorem g3 cmap3 4 1 (by decide)

/- ### Stable descending sort (Python `sorted(..., key=..., reverse=True)`) -/

/-- Insert `x` into a descending-sorted list, placing it before the first
element it is greater than or equal to (so that, among equals, the element
inserted later in the recursion — i.e. earlier in the original list — comes
first, matching the stability of Python's sort). -/
def insDescBy (le : α → α → Bool) (x : α) : List α → List α
  | [] => [x]
  | y :: ys => if le y x then x :: y :: ys else y :: insDescBy le x ys

/-- Python `sorted(l, key=k, reverse=True)`: stable descending sort. -/
def sortDescBy (le : α → α → Bool) : List α → List α
  | [] => []
  | x :: xs => insDescBy le x (sortDescBy le xs)

theorem insDescBy_perm (le : α → α → Bool) (x : α) :
    ∀ l : List α, (insDescBy le x l).Perm (x :: l) := by
  intro l
  induction l with
  | nil => simp [insDescBy]
  | cons y ys ih =>
      by_cases h : le y x
      · simp [insDescBy, h]
      · simp only [insDescBy, h, Bool.false_eq_true, if_neg, not_false_iff]
        exact (ih.cons y).trans (List.Perm.swap x y ys)

theorem sortDescBy_perm (le : α → α → Bool) :
    ∀ l : List α, (sortDescBy le l).Perm l := by
  intro l
  induction l with
  | nil => simp [sortDescBy]
  | cons x xs ih =>
      exact (insDescBy_perm le x (sortDescBy le xs)).trans (ih.cons x)

theorem insDescBy_pairwise (le : α → α → Bool)
    (htot : ∀ a b, le a b = true ∨ le b a = true)
    (htrans : ∀ a b c, le a b = true → le b c = true → le a c = true)
    (x : α) :
    ∀ l : List α, l.Pairwise (fun a b => le b a = true) →
      (insDescBy le x l).Pairwise (fun a b => le b a = true) := by
  intro l
  induction l with
  | nil => intro _; simp [insDescBy]
  | cons y ys ih =>
      intro h
      by_cases hxy : le y x
      · simp only [insDescBy, hxy, if_pos]
        refine List.Pairwise.cons ?_ h
        intro z hz
        rcases List.mem_cons.1 hz with hz | hz
        · rw [hz]; exact hxy
        · exact htrans z y x ((List.pairwise_cons.1 h).1 z hz) hxy
      · simp only [insDescBy, hxy, Bool.false_eq_true, if_neg, not_false_iff]
        refine List.Pairwise.cons ?_ (ih (List.pairwise_cons.1 h).2)
        intro z hz
        have hz2 : z = x ∨ z ∈ ys :=
          by simpa using (insDescBy_perm le x ys).mem_iff.1 hz
        rcases hz2 with hz2 | hz2
        · rw [hz2]
          rcases htot y x with hh | hh
          · exact absurd hh (by simpa using hxy)
          · exact hh
        · exact (List.pairwise_cons.1 h).1 z hz2

theorem sortDescBy_pairwise (le : α → α → Bool)
    (htot : ∀ a b, le a b = true ∨ le b a = true)
    (htrans : ∀ a b c, le a b = true → le b c = true → le a c = true) :
    ∀ l : List α, (sortDescBy le l).Pairwise (fun a b => le b a = true) := by
  intro l
  induction l with
  | nil => simp [sortDescBy]
  | cons x xs ih => exact insDescBy_pairwise le htot htrans x _ ih

/- ### AnchorPlacer (lines 649-659) -/

/-- Boolean comparison of the sort keys `(cohesion, degree)` — the key of
`sorted(connected_nodes, key=lambda n: (cohesion(n), degree(n)), reverse=True)`
compares tuples lexicographically. -/
def anchorKeyLE (a b : ℚ × ℕ) : Bool :=
  decide (a.1 < b.1) || (decide (a.1 = b.1) && decide (a.2 ≤ b.2))

def cohesionKey (g : NetGraph) (cmap : List (ℕ × ℤ)) (n : ℕ) : ℚ × ℕ :=
  (nodeCohesion g cmap n, degOf g n)

/-- `nodes_by_cohesion` (lines 652-654). -/
def nodesByCohesion (g : NetGraph) (cmap : List (ℕ × ℤ)) : List ℕ :=
  sortDescBy (fun n m => anchorKeyLE (cohesionKey g cmap n) (cohesionKey g cmap m))
    (connectedNodes g)

/-- `num_anchors = max(1, len(nodes_by_cohesion) // 10)` (line 657):
integer FLOOR division. -/
def numAnchors (g : NetGraph) (cmap : List (ℕ × ℤ)) : ℕ :=
  max 1 ((nodesByCohesion g cmap).length / 10)

/-- `anchor_nodes = nodes_by_cohesion[:num_anchors]` (line 658). -/
def anchorNodes (g : NetGraph) (cmap : List (ℕ × ℤ)) : List ℕ :=
  (nodesByCohesion g cmap).take (numAnchors g cmap)

theorem anchorKeyLE_total (a b : ℚ × ℕ) :
    anchorKeyLE a b = true ∨ anchorKeyLE b a = true := by
  rcases lt_trichotomy a.1 b.1 with h | h | h
  · left; simp [anchorKeyLE, h]
  · rcases Nat.le_total a.2 b.2 with h2 | h2
    · left; simp [anchorKeyLE, h, h2]
    · right; simp [anchorKeyLE, h.symm, h2]
  · right; simp [anchorKeyLE, h]

theorem anchorKeyLE_trans (a b c : ℚ × ℕ) (h1 : anchorKeyLE a b = true)
    (h2 : anchorKeyLE b c = true) : anchorKeyLE a c = true := by
  simp only [anchorKeyLE, Bool.or_eq_true, Bool.and_eq_true, decide_eq_true_eq] at h1 h2 ⊢
  rcases h1 with h1 | ⟨h1e, h1n⟩
  · rcases h2 with h2 | ⟨h2e, _⟩
    · exact Or.inl (h1.trans h2)
    · exact Or.inl (h2e ▸ h1)
  · rcases h2 with h2 | ⟨h2e, h2n⟩
    · exact Or.inl (h1e ▸ h2)
    · exact Or.inr ⟨h1e.trans h2e, h1n.trans h2n⟩

/-- Path graph on 11 nodes: 11 connected nodes, so the claimed anchor
count would be `max(1, ceil(11/10)) = 2` while the code computes
`max(1, 11 // 10) = 1`. -/
def g5 : NetGraph :=
  ⟨[0, 1, 2, 3, 4, 5, 6, 7, 8, 9, 10],
   [(0, 1), (1, 2), (2, 3), (3, 4), (4, 5), (5, 6), (6, 7), (7, 8), (8, 9), (9, 10)]⟩

/-- C5 counterexample: with 11 connected nodes the code designates
`max(1, 11 // 10) = 1` anchor, but the claim's `max(1, ⌈11/10⌉)` is 2. -/
theorem C5_counterexample :
    (anchorNodes g5 []).length = 1 ∧ (connectedNodes g5).length = 11 ∧
      max 1 ((11 + 9) / 10) = 2 := by
  have hperm := sortDescBy_perm
    (fun n m => anchorKeyLE (cohesionKey g5 [] n) (cohesionKey g5 [] m))
    (connectedNodes g5)
  have hlen : (nodesByCohesion g5 []).length = 11 := by
    rw [nodesByCohesion, hperm.length_eq]
    decide
  refine ⟨?_, by decide, by decide⟩
  rw [anchorNodes, List.length_take, numAnchors, hlen]
  omega

/-- C5 (amended): for every graph with at least one connected node,
AnchorPlacer designates exactly `max(1, floor(n/10))` anchors (Python `//`
is floor division, not ceiling), chosen as the first nodes of the
connected-node list stably sorted by `(cohesion, degree)` descending. -/
theorem C5_theorem (g : NetGraph) (cmap : List (ℕ × ℤ))
    (h : connectedNodes g ≠ []) :
    (anchorNodes g cmap).length = max 1 ((connectedNodes g).length / 10) ∧
    (nodesByCohesion g cmap).Perm (connectedNodes g) ∧
    (nodesByCohesion g cmap).Pairwise
      (fun n m => anchorKeyLE (cohesionKey g cmap m) (cohesionKey g cmap n) = true) ∧
    anchorNodes g cmap =
      (nodesByCohesion g cmap).take (max 1 ((connectedNodes g).length / 10)) := by
  have hperm := sortDescBy_perm
    (fun n m => anchorKeyLE (cohesionKey g cmap n) (cohesionKey g cmap m))
    (connectedNodes g)
  have hlen : (nodesByCohesion g cmap).length = (connectedNodes g).length :=
    hperm.length_eq
  have hpos : 1 ≤ (connectedNodes g).length := List.length_pos.2 h
  have hdiv := Nat.div_le_self ((connectedNodes g).length) 10
  refine ⟨?_, hperm, ?_, ?_⟩
  · rw [anchorNodes, List.length_take, numAnchors, hlen]
    omega
  · have htot : ∀ a b : ℕ,
        anchorKeyLE (cohesionKey g cmap a) (cohesionKey g cmap b) = true ∨
          anchorKeyLE (cohesionKey g cmap b) (cohesionKey g cmap a) = true :=
      fun a b => anchorKeyLE_total _ _
    have htrans : ∀ a b c : ℕ,
        anchorKeyLE (cohesionKey g cmap a) (cohesionKey g cmap b) = true →
          anchorKeyLE (cohesionKey g cmap b) (cohesionKey g cmap c) = true →
          anchorKeyLE (cohesionKey g cmap a) (cohesionKey g cmap c) = true :=
      fun a b c => anchorKeyLE_trans _ _ _
    exact sortDescBy_pairwise _ htot htrans (connectedNodes g)
  · rw [anchorNodes, numAnchors, hlen]

/-- C5 witness: on the concrete 3-connected-node graph `g4` the amended
count evaluates to `max(1, 3 // 10) = 1`. -/
theorem C5_witness : (anchorNodes g4 cmap4).length = 1 := by
  have h := (C5_theorem g4 cmap4 (by decide)).1
  simpa using h

/- ### SectorAllocator (lines 514-543 and 619-627) -/

/-- `comm_sizes` (lines 518-522): count of nodes per primary community, in
node iteration order, as a dict. -/
def commSizes (g : NetGraph) (cmap : List (ℕ × ℤ)) : List (ℤ × ℕ) :=
  commCounts (g.nodes.filterMap (primaryCommunityOpt g cmap))

/-- `sorted(comm_sizes.keys(), key=lambda c: comm_sizes[c], reverse=True)`
(line 622), carried as dict items. -/
def sortedCommSizes (g : NetGraph) (cmap : List (ℕ × ℤ)) : List (ℤ × ℕ) :=
  sortDescBy (fun p q => decide (p.2 ≤ q.2)) (commSizes g cmap)

/-- `total_nodes = sum(comm_sizes.values())` (line 528). -/
def totalNodesOf (g : NetGraph) (cmap : List (ℕ × ℤ)) : ℕ :=
  ((commSizes g cmap).map Prod.snd).sum

/-- `num_communities = len(community_list)` (lines 514-515): number of
distinct primary communities. -/
def numCommunities (g : NetGraph) (cmap : List (ℕ × ℤ)) : ℕ :=
  (g.nodes.filterMap (primaryCommunityOpt g cmap)).dedup.length

/-- `gap_per_community = (2*pi*0.15) / num_communities` (line 530).  Angles
are measured in units of π (the full circle is 2), so the gap is
`(3/10)/k`.  `k = 0` happens exactly when there are no connected nodes; on
that path the real run has already aborted one statement earlier, at
line 529, with `UnboundLocalError`: `import math` at line 467 is guarded by
`if len(connected_nodes) > 0:`, which makes `math` function-local, so the
first use `math.pi` raises when the import never executed (had it got one
statement further, this division by `num_communities = 0` would have
raised `ZeroDivisionError`).  The model surfaces that abort here, with the
exception the program actually raises. -/
def gapPerCommunity (k : ℕ) : Except String ℚ :=
  if k = 0 then Except.error "UnboundLocalError"
  else Except.ok ((3 / 10) / (k : ℚ))

/-- Lines 619-627: walk the size-sorted communities accumulating
`current_angle`, giving each community `(baseAngle, angleSpan)` with
`angleSpan = (size/total) * usable` where `usable = 2π*0.85` (here `17/10`
in π-units), then advancing by span plus gap. -/
def allocSectorsAux (total gap : ℚ) : ℚ → List (ℤ × ℕ) → List (ℤ × ℚ × ℚ)
  | _, [] => []
  | cur, (c, sz) :: rest =>
      (c, cur, ((sz : ℚ) / total) * (17 / 10)) ::
        allocSectorsAux total gap (cur + ((sz : ℚ) / total) * (17 / 10) + gap) rest

/-- The sector stage of `create_visualization`: the angle setup (which
ABORTS at line 529 on a graph with zero detected primary communities, see
`gapPerCommunity`) followed by the sector layout. -/
def sectorStage (g : NetGraph) (cmap : List (ℕ × ℤ)) :
    Except String (List (ℤ × ℚ × ℚ)) :=
  match gapPerCommunity (numCommunities g cmap) with
  | Except.error e => Except.error e
  | Except.ok gap =>
      Except.ok (allocSectorsAux (totalNodesOf g cmap) gap 0 (sortedCommSizes g cmap))

/-- With no edges, no node has a primary community, so the angle setup of
the sector stage aborts (line 529: unbound function-local `math`, one
statement before the division by `num_communities = 0`). -/
theorem sectorStage_error_of_edges_nil (g : NetGraph) (cmap : List (ℕ × ℤ))
    (h : g.edges = []) : sectorStage g cmap = Except.error "UnboundLocalError" := by
  have hnb : ∀ n, neighborsOf g n = [] := by
    intro n
    rw [neighborsOf, h]
    rfl
  have hpo : ∀ n, primaryCommunityOpt g cmap n = none := by
    intro n
    rw [primaryCommunityOpt, nbrLabels, hnb n]
    rfl
  have hfm : g.nodes.filterMap (primaryCommunityOpt g cmap) = [] := by
    rw [List.filterMap_eq_nil]
    intro a _
    exact hpo a
  have hnum : numCommunities g cmap = 0 := by
    rw [numCommunities, hfm]
    rfl
  rw [sectorStage, hnum]
  rfl

/-- C1: for every graph with at least one node and no edges, the layout
does NOT complete: with zero detected communities the sector stage aborts
at line 529 with `UnboundLocalError` (the guarded `import math` at
line 467 never ran), one statement before line 530 would have divided by
`num_communities = 0` — while the spec requires this case to mean
"everyone isolated", not an error. -/
theorem C1_theorem (g : NetGraph) (cmap : List (ℕ × ℤ))
    (hn : g.nodes ≠ []) (he : g.edges = []) :
    sectorStage g cmap = Except.error "UnboundLocalError" :=
  sectorStage_error_of_edges_nil g cmap he

/-- C1 witness: the one-node, zero-edge graph crashes the sector stage. -/
theorem C1_witness :
    sectorStage ⟨[7], []⟩ [] = Except.error "UnboundLocalError" :=
  C1_theorem ⟨[7], []⟩ [] (by simp) rfl

theorem allocSectorsAux_spans (total gap : ℚ) :
    ∀ (sizes : List (ℤ × ℕ)) (cur : ℚ),
      (allocSectorsAux total gap cur sizes).map (fun s => (s.1, s.2.2)) =
        sizes.map (fun p => (p.1, ((p.2 : ℚ) / total) * (17 / 10))) := by
  intro sizes
  induction sizes with
  | nil => intro cur; rfl
  | cons p rest ih =>
      intro cur
      obtain ⟨c, sz⟩ := p
      simp only [allocSectorsAux, List.map_cons, ih]

theorem allocSectorsAux_sum_spans (total gap : ℚ) :
    ∀ (sizes : List (ℤ × ℕ)) (cur : ℚ),
      ((allocSectorsAux total gap cur sizes).map (fun s => s.2.2)).sum =
        (((sizes.map Prod.snd).sum : ℕ) / total) * (17 / 10) := by
  intro sizes
  induction sizes with
  | nil => intro cur; simp [allocSectorsAux]
  | cons p rest ih =>
      intro cur
      obtain ⟨c, sz⟩ := p
      simp only [allocSectorsAux, List.map_cons, List.sum_cons, ih,
        List.map_cons, Nat.cast_add]
      push_cast
      ring

theorem allocSectorsAux_base_le (total gap : ℚ) (hgap : 0 ≤ gap)
    (htotal : 0 ≤ total) :
    ∀ (sizes : List (ℤ × ℕ)) (cur : ℚ),
      ∀ s ∈ allocSectorsAux total gap cur sizes, cur ≤ s.2.1 := by
  intro sizes
  induction sizes with
  | nil => intro cur s hs; cases hs
  | cons p rest ih =>
      intro cur s hs
      obtain ⟨c, sz⟩ := p
      rcases List.mem_cons.1 hs with hs | hs
      · rw [hs]
      · have hspan : 0 ≤ ((sz : ℚ) / total) * (17 / 10) := by positivity
        have := ih (cur + ((sz : ℚ) / total) * (17 / 10) + gap) s hs
        linarith

theorem allocSectorsAux_pairwise (total gap : ℚ) (hgap : 0 < gap)
    (htotal : 0 ≤ total) :
    ∀ (sizes : List (ℤ × ℕ)) (cur : ℚ),
      (allocSectorsAux total gap cur sizes).Pairwise
        (fun s t => s.2.1 + s.2.2 < t.2.1) := by
  intro sizes
  induction sizes with
  | nil => intro cur; simp [allocSectorsAux]
  | cons p rest ih =>
      intro cur
      obtain ⟨c, sz⟩ := p
      refine List.Pairwise.cons ?_ (ih _)
      intro t ht
      have hbase := allocSectorsAux_base_le total gap (le_of_lt hgap) htotal
        rest (cur + ((sz : ℚ) / total) * (17 / 10) + gap) t ht
      simp only
      linarith

/-- C6: for every nonempty community-size map with all sizes at least 1,
the sectors laid out with gap `(2π·0.15)/k` have spans
`(size/total)·(0.85·2π)` each, the spans plus the `k` gaps sum to exactly
`2π` (angles in π-units: the full circle is `2`), and the sectors are
pairwise non-overlapping (each sector ends strictly before the next
begins). -/
theorem C6_theorem (sizes : List (ℤ × ℕ)) (hne : sizes ≠ [])
    (hpos : ∀ p ∈ sizes, 1 ≤ p.2) :
    ((allocSectorsAux (((sizes.map Prod.snd).sum : ℕ) : ℚ)
        ((3 / 10) / (sizes.length : ℚ)) 0 sizes).map (fun s => s.2.2)).sum +
      (sizes.length : ℚ) * ((3 / 10) / (sizes.length : ℚ)) = 2 ∧
    (allocSectorsAux (((sizes.map Prod.snd).sum : ℕ) : ℚ)
        ((3 / 10) / (sizes.length : ℚ)) 0 sizes).map (fun s => (s.1, s.2.2)) =
      sizes.map (fun p =>
        (p.1, ((p.2 : ℚ) / (((sizes.map Prod.snd).sum : ℕ) : ℚ)) * (17 / 10))) ∧
    (allocSectorsAux (((sizes.map Prod.snd).sum : ℕ) : ℚ)
        ((3 / 10) / (sizes.length : ℚ)) 0 sizes).Pairwise
      (fun s t => s.2.1 + s.2.2 < t.2.1) := by
  have hlenpos : 0 < sizes.length := List.length_pos.2 hne
  have hlenq : (0 : ℚ) < (sizes.length : ℚ) := by exact_mod_cast hlenpos
  have hgap : (0 : ℚ) < (3 / 10) / (sizes.length : ℚ) := by positivity
  have hsumpos : 0 < (sizes.map Prod.snd).sum := by
    obtain ⟨p, rest, rfl⟩ := List.exists_cons_of_ne_nil hne
    have h1 : 1 ≤ p.2 := hpos p (List.mem_cons_self _ _)
    simp only [List.map_cons, List.sum_cons]
    omega
  have hsumq : (0 : ℚ) < (((sizes.map Prod.snd).sum : ℕ) : ℚ) := by
    exact_mod_cast hsumpos
  refine ⟨?_, allocSectorsAux_spans _ _ sizes 0,
    allocSectorsAux_pairwise _ _ hgap (le_of_lt hsumq) sizes 0⟩
  rw [allocSectorsAux_sum_spans, div_self (ne_of_gt hsumq), one_mul,
    mul_comm ((sizes.length : ℚ)) ((3 / 10) / (sizes.length : ℚ)),
    div_mul_cancel₀ _ (ne_of_gt hlenq)]
  norm_num

/-- C6 witness: two communities of sizes 2 and 1. -/
theorem C6_witness :
    ((allocSectorsAux ((([(0, 2), (1, 1)].map (Prod.snd (α := ℤ))).sum : ℕ) : ℚ)
        ((3 / 10) / (([(0, 2), (1, 1)] : List (ℤ × ℕ)).length : ℚ)) 0
        [(0, 2), (1, 1)]).map (fun s => s.2.2)).sum +
      ((([(0, 2), (1, 1)] : List (ℤ × ℕ)).length : ℚ)) *
        ((3 / 10) / (([(0, 2), (1, 1)] : List (ℤ × ℕ)).length : ℚ)) = 2 :=
  (C6_theorem [(0, 2), (1, 1)] (by simp) (by decide)).1

/- ### RadialMetric (lines 480-495 and 546-555) -/

/-- `max_degree = max(degree(n) for n in layout_nodes) if layout_nodes else 1`
(line 481). -/
def maxDegreeOf (g : NetGraph) : ℕ :=
  if g.nodes = [] then 1 else (g.nodes.map (degOf g)).foldl max 0

/-- Lines 548-555: `radius = max_radius * (1 - degree/max_degree)` when
`max_degree > 0`, else `max_radius`; `max_radius = 500` (line 482). -/
def nodeRadius (g : NetGraph) (n : ℕ) : ℚ :=
  if 0 < maxDegreeOf g then
    500 * (1 - (degOf g n : ℚ) / (maxDegreeOf g : ℚ))
  else 500

/-- C7: the target radius is `500·(1 − d/D)` whenever the global maximum
degree `D` is positive; when `D = 0` every node's radius is 500 (no
division by zero); and the radius is a non-increasing function of degree
over all nodes. -/
theorem C7_theorem (g : NetGraph) :
    (maxDegreeOf g = 0 → ∀ n, nodeRadius g n = 500) ∧
    (0 < maxDegreeOf g → ∀ n,
      nodeRadius g n = 500 * (1 - (degOf g n : ℚ) / (maxDegreeOf g : ℚ))) ∧
    (∀ n m, degOf g n ≤ degOf g m → nodeRadius g m ≤ nodeRadius g n) := by
  refine ⟨?_, ?_, ?_⟩
  · intro h n
    simp [nodeRadius, h]
  · intro h n
    simp [nodeRadius, h]
  · intro n m hnm
    by_cases h : 0 < maxDegreeOf g
    · have hD : (0 : ℚ) < (maxDegreeOf g : ℚ) := by exact_mod_cast h
      have hcast : (degOf g n : ℚ) ≤ (degOf g m : ℚ) := by exact_mod_cast hnm
      have hdiv : (degOf g n : ℚ) / (maxDegreeOf g : ℚ) ≤
          (degOf g m : ℚ) / (maxDegreeOf g : ℚ) :=
        (div_le_div_right hD).2 hcast
      simp only [nodeRadius, h, if_pos]
      linarith
    · simp [nodeRadius, h]

/-- C7 witness: in `g3`, node 1 (degree 1) gets a radius no smaller than
hub node 4 (degree 3). -/
theorem C7_witness : nodeRadius g3 4 ≤ nodeRadius g3 1 :=
  (C7_theorem g3).2.2 1 4 (by decide)

/- ### IsolatedPlacer (lines 633-643) -/

/-- `grid_size = int(math.ceil(math.sqrt(len(isolated_nodes))))` when there
are isolated nodes, else 0 (line 635). -/
def gridSize (count : ℕ) : ℕ :=
  if count = 0 then 0
  else if Nat.sqrt count * Nat.sqrt count = count then Nat.sqrt count
  else Nat.sqrt count + 1

/-- Lines 640-642: the `idx`-th isolated node goes to
`((idx % grid_size) * 25 + 550, (idx // grid_size) * 25 + 550)` where
`550 = max_radius + 50` and the grid spacing is 25. -/
def isolatedGridPos (count idx : ℕ) : ℚ × ℚ :=
  (((idx % gridSize count : ℕ) : ℚ) * 25 + 550,
   ((idx / gridSize count : ℕ) : ℚ) * 25 + 550)

/-- C8: every grid position lies strictly outside `maxRadius = 500`
(squared distance exceeds 500²) and a single isolated node would be placed
at `(550, 550) = (maxRadius+50, maxRadius+50)` — but on the graph with one
isolated node and no edges the sector stage aborts first (line 529,
`UnboundLocalError` from the guarded function-local `import math`; the
next statement would divide by zero), so the IsolatedPlacer is never
reached and the node is never placed. -/
theorem C8_theorem :
    (∀ count idx : ℕ,
      (isolatedGridPos count idx).1 ^ 2 + (isolatedGridPos count idx).2 ^ 2 >
        500 ^ 2) ∧
    isolatedGridPos 1 0 = (550, 550) ∧
    sectorStage ⟨[5], []⟩ [] = Except.error "UnboundLocalError" := by
  refine ⟨?_, ?_, sectorStage_error_of_edges_nil ⟨[5], []⟩ [] rfl⟩
  · intro count idx
    have hc1 : (0 : ℚ) ≤ ((idx % gridSize count : ℕ) : ℚ) := Nat.cast_nonneg _
    have hc2 : (0 : ℚ) ≤ ((idx / gridSize count : ℕ) : ℚ) := Nat.cast_nonneg _
    have hx : (550 : ℚ) ≤ (isolatedGridPos count idx).1 := by
      simp only [isolatedGridPos]
      linarith
    have hy : (550 : ℚ) ≤ (isolatedGridPos count idx).2 := by
      simp only [isolatedGridPos]
      linarith
    nlinarith
  · have h1 : gridSize 1 = 1 := by simp [gridSize]
    simp [isolatedGridPos, h1]

/- ### Geometric phases over ℝ (lines 838-1091)

The iterative phases use `math.sqrt`, `math.atan2`, `math.cos`, `math.sin`
and the float modulo; they are modelled over `ℝ`.  Every `random.uniform`
draw is an explicit oracle argument (`xi`). -/

noncomputable section

/-- Python `a % b` on floats (used as `angle % (2*pi)`, `b > 0`). -/
def rmod (a b : ℝ) : ℝ := a - b * ((⌊a / b⌋ : ℤ) : ℝ)

/-- Python `math.atan2 y x` (real-number semantics, ignoring signed zeros). -/
def atan2 (y x : ℝ) : ℝ :=
  if 0 < x then Real.arctan (y / x)
  else if x < 0 ∧ 0 ≤ y then Real.arctan (y / x) + Real.pi
  else if x < 0 then Real.arctan (y / x) - Real.pi
  else if 0 < y then Real.pi / 2
  else if y < 0 then -(Real.pi / 2)
  else 0

/-- The per-layout data the iterative phases read: the connected-node list,
adjacency, `node_primary_community`, `node_visual_size`, `node_radius`,
`node_cohesion`, `anchor_nodes`, `community_centers`,
`community_base_angles` and `community_angle_span` (all in radians). -/
structure LayoutCtx where
  connected : List ℕ
  nbrs : ℕ → List ℕ
  primary : ℕ → Option ℤ
  vsize : ℕ → ℝ
  radius : ℕ → ℝ
  cohesion : ℕ → ℝ
  anchors : List ℕ
  centers : List (ℤ × ℝ × ℝ)
  baseAngle : List (ℤ × ℝ)
  angleSpan : List (ℤ × ℝ)

/-- Euclidean distance between the stored positions of two nodes
(lines 973-975). -/
def pairDist (pos : ℕ → ℝ × ℝ) (n m : ℕ) : ℝ :=
  Real.sqrt (((pos n).1 - (pos m).1) * ((pos n).1 - (pos m).1) +
    ((pos n).2 - (pos m).2) * ((pos n).2 - (pos m).2))

/-- Lines 977-981: `min_dist` is 2× the combined visual size for a
different-community pair and 1.3× for a same-community pair. -/
def minSeparation (ctx : LayoutCtx) (n m : ℕ) : ℝ :=
  if ctx.primary n ≠ ctx.primary m then (ctx.vsize n + ctx.vsize m) * 2
  else (ctx.vsize n + ctx.vsize m) * (13 / 10)

/-- Lines 983-988: the repulsive displacement `m` contributes to `n`,
`(dx, dy) * (overlap / dist)`, applied only when `0 < dist < min_dist`. -/
def repulsionFrom (ctx : LayoutCtx) (pos : ℕ → ℝ × ℝ) (n m : ℕ) : ℝ × ℝ :=
  let dx := (pos n).1 - (pos m).1
  let dy := (pos n).2 - (pos m).2
  let dist := pairDist pos n m
  let minDist := minSeparation ctx n m
  if dist < minDist ∧ 0 < dist then
    (dx * ((minDist - dist) / dist), dy * ((minDist - dist) / dist))
  else (0, 0)

/-- Lines 960-988: total repulsion on `n` from every other connected node. -/
def repulsionSum (ctx : LayoutCtx) (pos : ℕ → ℝ × ℝ) (n : ℕ) : ℝ × ℝ :=
  ctx.connected.foldl
    (fun acc m =>
      if m = n then acc
      else (acc.1 + (repulsionFrom ctx pos n m).1,
            acc.2 + (repulsionFrom ctx pos n m).2))
    (0, 0)

/-- `node_cross_ratio` as recomputed inside the collision loop
(lines 956-958): 1 minus the same-primary-community neighbor fraction. -/
def crossFracR (ctx : LayoutCtx) (n : ℕ) : ℝ :=
  if ctx.nbrs n = [] then 0
  else 1 - (((ctx.nbrs n).filter
        (fun m => ctx.primary m = ctx.primary n)).length : ℝ) /
      ((ctx.nbrs n).length : ℝ)

/-- The soft angular clamp (lines 917-933 and 1061-1082): normalize the
angle and the sector bounds modulo `2π`, then nudge an out-of-sector angle
just inside the nearer boundary; `xi` is the drawn `random.uniform(0.02, 0.15)`. -/
def softClamp (minA maxA angle xi : ℝ) : ℝ :=
  let a := rmod angle (2 * Real.pi)
  let mn := rmod minA (2 * Real.pi)
  let mx := rmod maxA (2 * Real.pi)
  if mn < mx then
    if a < mn then mn + xi
    else if mx < a then mx - xi
    else a
  else
    if mx < a ∧ a < mn then
      if |a - mx| < |a - mn| then mx - xi else mn + xi
    else a

/-- Lines 1012-1058: a node whose cross-community share exceeds 0.5 may
drift toward its dominant foreign community's sector center when the
balance and representation thresholds hold; otherwise it keeps its
radially-clamped position.  `bb`/`bs` are the home sector already looked
up by the caller. -/
def crossShift (ctx : LayoutCtx) (n : ℕ) (c : ℤ) (bb bs : ℝ) (p : ℝ × ℝ) :
    ℝ × ℝ :=
  let ns := ctx.nbrs n
  let sameCount := (ns.filter (fun m => ctx.primary m = some c)).length
  let crossLabels := (ns.filter (fun m => ¬ ctx.primary m = some c)).filterMap
    ctx.primary
  match commCounts crossLabels with
  | [] => p
  | q :: rest =>
      let top := maxPair q rest
      let crossConn := top.2
      let balance : ℝ :=
        if 0 < sameCount + crossConn then
          (crossConn : ℝ) / ((sameCount + crossConn : ℕ) : ℝ)
        else 0
      let crossPct : ℝ :=
        if 0 < ns.length then (crossConn : ℝ) / (ns.length : ℝ) else 0
      match ctx.baseAngle.lookup top.1, ctx.angleSpan.lookup top.1 with
      | some tb, some ts =>
          if 1 / 2 < balance ∧ 2 / 5 < crossPct then
            let targetCenter := tb + ts / 2
            let shiftAmount := (balance - 1 / 2) / (1 / 2)
            let curCenter := bb + bs / 2
            let newCenter :=
              curCenter + (targetCenter - curCenter) * shiftAmount * (1 / 2)
            let r := Real.sqrt (p.1 ^ 2 + p.2 ^ 2)
            (r * Real.cos newCenter, r * Real.sin newCenter)
          else p
      | _, _ => p

/-- One collision-pass update of node `n` (lines 950-1089): repulsion
scaled by 0.08, radial clamp into `[0.4, 1.6] × node_radius`, then either
the cross-community drift (cross share > 0.5) or the soft sector clamp. -/
def collisionBody (ctx : LayoutCtx) (xi : ℕ → ℝ) (pos : ℕ → ℝ × ℝ) (n : ℕ) :
    ℝ × ℝ :=
  let curr := pos n
  let rep := repulsionSum ctx pos n
  let nx := curr.1 + rep.1 * (8 / 100)
  let ny := curr.2 + rep.2 * (8 / 100)
  let tr := ctx.radius n
  let r := Real.sqrt (nx ^ 2 + ny ^ 2)
  if 0 < r then
    let scale :=
      if r < tr * (2 / 5) then tr * (2 / 5) / r
      else if tr * (8 / 5) < r then tr * (8 / 5) / r
      else 1
    let sx := nx * scale
    let sy := ny * scale
    match ctx.primary n with
    | none => (sx, sy)
    | some c =>
        match ctx.baseAngle.lookup c, ctx.angleSpan.lookup c with
        | some bb, some bs =>
            if 1 / 2 < crossFracR ctx n then crossShift ctx n c bb bs (sx, sy)
            else
              let ang := softClamp bb (bb + bs) (atan2 sy sx) (xi n)
              let ar := Real.sqrt (sx ^ 2 + sy ^ 2)
              (ar * Real.cos ang, ar * Real.sin ang)
        | _, _ => (sx, sy)
  else (nx, ny)

/-- One relaxation-pass update of node `n` (lines 840-942): pull toward the
same-community neighbor centroid and the community center with
cohesion-weighted strengths (weaker for anchors), low-cohesion repulsion
from the center, then the cohesion-modulated radial clamp and the soft
sector clamp. -/
def relaxBody (ctx : LayoutCtx) (xi : ℕ → ℝ) (pos : ℕ → ℝ × ℝ) (n : ℕ) :
    ℝ × ℝ :=
  let ns := ctx.nbrs n
  if ns = [] then pos n
  else
    let comm := ctx.primary n
    let same := ns.filter (fun m => ctx.primary m = comm)
    let coh : ℝ :=
      if same = [] then 0 else (same.length : ℝ) / (ns.length : ℝ)
    let target :=
      match comm with
      | none => pos n
      | some c =>
          match ctx.centers.lookup c with
          | none => pos n
          | some cen =>
              if same = [] then pos n
              else
                let cx := (same.map (fun m => (pos m).1)).sum / (same.length : ℝ)
                let cy := (same.map (fun m => (pos m).2)).sum / (same.length : ℝ)
                let curr := pos n
                let cs :=
                  if n ∈ ctx.anchors then (5 / 100) * coh ^ 2
                  else (6 / 10) * coh ^ 2
                let nstr : ℝ := if n ∈ ctx.anchors then 12 / 100 else 4 / 10
                let tx := curr.1 + (cen.1 - curr.1) * cs + (cx - curr.1) * nstr
                let ty := curr.2 + (cen.2 - curr.2) * cs + (cy - curr.2) * nstr
                if coh < 2 / 5 then
                  (tx + (curr.1 - cen.1) * ((2 / 5 - coh) * (1 / 2)),
                   ty + (curr.2 - cen.2) * ((2 / 5 - coh) * (1 / 2)))
                else (tx, ty)
    let tr := ctx.radius n * (7 / 10 + (1 - ctx.cohesion n) * (6 / 10))
    let r := Real.sqrt (target.1 ^ 2 + target.2 ^ 2)
    if 0 < r then
      let scale :=
        if r < tr * (2 / 5) then tr * (2 / 5) / r
        else if tr * (8 / 5) < r then tr * (8 / 5) / r
        else 1
      let sx := target.1 * scale
      let sy := target.2 * scale
      match comm with
      | none => (sx, sy)
      | some c =>
          match ctx.baseAngle.lookup c, ctx.angleSpan.lookup c with
          | some bb, some bs =>
              let ang := softClamp bb (bb + bs) (atan2 sy sx) (xi n)
              let ar := Real.sqrt (sx ^ 2 + sy ^ 2)
              (ar * Real.cos ang, ar * Real.sin ang)
          | _, _ => (sx, sy)
    else pos n

/-- `new_pos` built during one pass: each processed node is paired with a
value computed from the FROZEN previous-pass snapshot `pos` (the loop never
reads `new_pos`). -/
def seqUpdates (f : (ℕ → ℝ × ℝ) → ℕ → ℝ × ℝ) (pos : ℕ → ℝ × ℝ) :
    List ℕ → List (ℕ × (ℝ × ℝ))
  | [] => []
  | n :: rest => (n, f pos n) :: seqUpdates f pos rest

/-- `pos.update(new_pos)` after a pass. -/
def applyUpdates (pos : ℕ → ℝ × ℝ) (upds : List (ℕ × (ℝ × ℝ))) : ℕ → ℝ × ℝ :=
  fun m => ((upds.lookup m).getD (pos m))

/-- One whole pass: process the nodes of `order`, then merge the updates. -/
def runPass (f : (ℕ → ℝ × ℝ) → ℕ → ℝ × ℝ) (order : List ℕ)
    (pos : ℕ → ℝ × ℝ) : ℕ → ℝ × ℝ :=
  applyUpdates pos (seqUpdates f pos order)

/-- One collision pass over the connected nodes (lines 948-1091). -/
def collisionPass (ctx : LayoutCtx) (xi : ℕ → ℝ) (pos : ℕ → ℝ × ℝ) :
    ℕ → ℝ × ℝ :=
  runPass (collisionBody ctx xi) ctx.connected pos

/-- The 80-iteration collision loop; `Xi k n` is the oracle draw for node
`n` in pass `k`. -/
def collisionIter (ctx : LayoutCtx) (Xi : ℕ → ℕ → ℝ) :
    ℕ → (ℕ → ℝ × ℝ) → ℕ → ℝ × ℝ
  | 0, pos => pos
  | k + 1, pos => collisionIter ctx Xi k (collisionPass ctx (Xi k) pos)

end

theorem lookup_seqUpdates (f : (ℕ → ℝ × ℝ) → ℕ → ℝ × ℝ) (pos : ℕ → ℝ × ℝ) :
    ∀ (order : List ℕ) (n : ℕ),
      (seqUpdates f pos order).lookup n =
        if n ∈ order then some (f pos n) else none := by
  intro order
  induction order with
  | nil => intro n; simp [seqUpdates]
  | cons m rest ih =>
      intro n
      by_cases h : n = m
      · subst h
        simp [seqUpdates, List.lookup]
      · have hbeq : (n == m) = false := by simpa using h
        simp only [seqUpdates, List.lookup, hbeq, ih n, List.mem_cons]
        simp [h]

/-- The closed form of a pass: every processed node's new position is a
function of the previous snapshot only; unprocessed nodes are untouched. -/
theorem runPass_eq (f : (ℕ → ℝ × ℝ) → ℕ → ℝ × ℝ) (order : List ℕ)
    (pos : ℕ → ℝ × ℝ) (n : ℕ) :
    runPass f order pos n = if n ∈ order then f pos n else pos n := by
  rw [runPass, applyUpdates, lookup_seqUpdates]
  by_cases h : n ∈ order
  · simp [h]
  · simp [h]

/-- C9: in both the 60-pass relaxation loop and the 80-pass collision loop,
a pass computes each processed node's new position solely from the
previous pass's snapshot (`new_pos` is written while only `pos` is read,
and merged afterwards), so the result of a pass is the same for any
processing order of the nodes.  Random draws are modelled as a per-node
oracle `xi`, fixed independently of the processing order. -/
theorem C9_theorem :
    (∀ (ctx : LayoutCtx) (xi : ℕ → ℝ) (pos : ℕ → ℝ × ℝ) (order : List ℕ)
        (n : ℕ),
      runPass (collisionBody ctx xi) order pos n =
        if n ∈ order then collisionBody ctx xi pos n else pos n) ∧
    (∀ (ctx : LayoutCtx) (xi : ℕ → ℝ) (pos : ℕ → ℝ × ℝ) (order : List ℕ)
        (n : ℕ),
      runPass (relaxBody ctx xi) order pos n =
        if n ∈ order then relaxBody ctx xi pos n else pos n) ∧
    (∀ (ctx : LayoutCtx) (xi : ℕ → ℝ) (pos : ℕ → ℝ × ℝ)
        (o1 o2 : List ℕ), o1.Perm o2 → ∀ n : ℕ,
      runPass (collisionBody ctx xi) o1 pos n =
        runPass (collisionBody ctx xi) o2 pos n) ∧
    (∀ (ctx : LayoutCtx) (xi : ℕ → ℝ) (pos : ℕ → ℝ × ℝ)
        (o1 o2 : List ℕ), o1.Perm o2 → ∀ n : ℕ,
      runPass (relaxBody ctx xi) o1 pos n =
        runPass (relaxBody ctx xi) o2 pos n) := by
  refine ⟨fun ctx xi pos order n => runPass_eq _ _ _ _,
    fun ctx xi pos order n => runPass_eq _ _ _ _, ?_, ?_⟩
  · intro ctx xi pos o1 o2 hperm n
    rw [runPass_eq, runPass_eq]
    by_cases h : n ∈ o1
    · rw [if_pos h, if_pos (hperm.mem_iff.1 h)]
    · rw [if_neg h, if_neg (fun hc => h (hperm.mem_iff.2 hc))]
  · intro ctx xi pos o1 o2 hperm n
    rw [runPass_eq, runPass_eq]
    by_cases h : n ∈ o1
    · rw [if_pos h, if_pos (hperm.mem_iff.1 h)]
    · rw [if_neg h, if_neg (fun hc => h (hperm.mem_iff.2 hc))]

/- ### A concrete two-node run of the collision loop -/

/-- `node_visual_size` (lines 556-561): base 10, plus `min(degree*0.5, 40)`
for connected nodes. -/
def nodeVisualSize (g : NetGraph) (n : ℕ) : ℚ :=
  if degOf g n = 0 then 10 else 10 + min ((degOf g n : ℚ) * (1 / 2)) 40

/-- Two nodes joined by one edge; both have the maximal degree 1, so both
get target radius `500 * (1 - 1/1) = 0`. -/
def g2 : NetGraph := ⟨[1, 2], [(1, 2)]⟩

def cmap2 : List (ℕ × ℤ) := [(1, 0), (2, 0)]

/-- Sanity: the sector stage of `g2` yields the single community 0 with
base 0 and span `1.7` in π-units, i.e. `1.7π` radians. -/
theorem sectors_g2 : sectorStage g2 cmap2 = Except.ok [(0, 0, 17 / 10)] := by
  have hnum : numCommunities g2 cmap2 = 1 := by decide
  have htot : totalNodesOf g2 cmap2 = 2 := by decide
  have hsz : sortedCommSizes g2 cmap2 = [(0, 2)] := by decide
  rw [sectorStage, hnum, htot, hsz]
  norm_num [gapPerCommunity, allocSectorsAux]

noncomputable section

/-- The layout context that the collision loop of `create_visualization`
reads for the graph `g2` with partition `cmap2`: all fields are the
pipeline's own values (the single community 0 owns the sector
`(base, span) = (0, 1.7π)` radians, from `sectors_g2`).  `centers` is read
only by the relaxation phase and is empty here. -/
def ctx2 : LayoutCtx where
  connected := connectedNodes g2
  nbrs := neighborsOf g2
  primary := primaryCommunityOpt g2 cmap2
  vsize := fun n => ((nodeVisualSize g2 n : ℚ) : ℝ)
  radius := fun n => ((nodeRadius g2 n : ℚ) : ℝ)
  cohesion := fun n => ((nodeCohesion g2 cmap2 n : ℚ) : ℝ)
  anchors := anchorNodes g2 cmap2
  centers := []
  baseAngle := [(0, 0)]
  angleSpan := [(0, (17 / 10) * Real.pi)]

/-- A concrete pre-collision configuration: the two nodes 100 apart on the
x-axis. -/
def posInit : ℕ → ℝ × ℝ :=
  fun n => if n = 1 then (100, 0) else if n = 2 then (200, 0) else (0, 0)

/-- An overlapping configuration used to exercise the repulsion formula. -/
def posW : ℕ → ℝ × ℝ :=
  fun n => if n = 1 then (0, 0) else if n = 2 then (3, 4) else (0, 0)

end

theorem ctx2_connected : ctx2.connected = [1, 2] := by
  show connectedNodes g2 = [1, 2]
  decide

theorem ctx2_primary_1 : ctx2.primary 1 = some 0 := by
  show primaryCommunityOpt g2 cmap2 1 = some 0
  decide

theorem ctx2_primary_2 : ctx2.primary 2 = some 0 := by
  show primaryCommunityOpt g2 cmap2 2 = some 0
  decide

theorem ctx2_vsize_1 : ctx2.vsize 1 = 21 / 2 := by
  show ((nodeVisualSize g2 1 : ℚ) : ℝ) = 21 / 2
  have h : nodeVisualSize g2 1 = 21 / 2 := by
    have hd : degOf g2 1 = 1 := by decide
    rw [nodeVisualSize, hd]
    norm_num [min_def]
  rw [h]
  norm_num

theorem ctx2_vsize_2 : ctx2.vsize 2 = 21 / 2 := by
  show ((nodeVisualSize g2 2 : ℚ) : ℝ) = 21 / 2
  have h : nodeVisualSize g2 2 = 21 / 2 := by
    have hd : degOf g2 2 = 1 := by decide
    rw [nodeVisualSize, hd]
    norm_num [min_def]
  rw [h]
  norm_num

theorem ctx2_radius_1 : ctx2.radius 1 = 0 := by
  show ((nodeRadius g2 1 : ℚ) : ℝ) = 0
  have h : nodeRadius g2 1 = 0 := by
    have hmax : maxDegreeOf g2 = 1 := by decide
    have hd : degOf g2 1 = 1 := by decide
    rw [nodeRadius, hmax, hd]
    norm_num
  rw [h]
  norm_num

theorem ctx2_radius_2 : ctx2.radius 2 = 0 := by
  show ((nodeRadius g2 2 : ℚ) : ℝ) = 0
  have h : nodeRadius g2 2 = 0 := by
    have hmax : maxDegreeOf g2 = 1 := by decide
    have hd : degOf g2 2 = 1 := by decide
    rw [nodeRadius, hmax, hd]
    norm_num
  rw [h]
  norm_num

theorem ctx2_minSep_12 : minSeparation ctx2 1 2 = 273 / 10 := by
  rw [minSeparation, if_neg, ctx2_vsize_1, ctx2_vsize_2]
  · norm_num
  · rw [ctx2_primary_1, ctx2_primary_2]
    simp

theorem ctx2_crossFrac_1 : crossFracR ctx2 1 = 0 := by
  have hnb : ctx2.nbrs 1 = [2] := by
    show neighborsOf g2 1 = [2]
    decide
  have hpp : ctx2.primary 2 = ctx2.primary 1 := by
    rw [ctx2_primary_1, ctx2_primary_2]
  simp only [crossFracR, hnb]
  rw [if_neg (by simp)]
  simp [hpp]

theorem ctx2_crossFrac_2 : crossFracR ctx2 2 = 0 := by
  have hnb : ctx2.nbrs 2 = [1] := by
    show neighborsOf g2 2 = [1]
    decide
  have hpp : ctx2.primary 1 = ctx2.primary 2 := by
    rw [ctx2_primary_1, ctx2_primary_2]
  simp only [crossFracR, hnb]
  rw [if_neg (by simp)]
  simp [hpp]

theorem rmod_eq_self (a b : ℝ) (h0 : 0 ≤ a) (hab : a < b) : rmod a b = a := by
  have hb : 0 < b := lt_of_le_of_lt h0 hab
  have hfl : ⌊a / b⌋ = 0 := by
    rw [Int.floor_eq_zero_iff]
    constructor
    · positivity
    · rw [div_lt_one hb]
      exact hab
  rw [rmod, hfl]
  simp

theorem atan2_zero_zero : atan2 0 0 = 0 := by
  simp [atan2]

theorem softClamp_zero (xi : ℝ) :
    softClamp 0 (0 + (17 / 10) * Real.pi) 0 xi = 0 := by
  have hpi := Real.pi_pos
  have hm0 : rmod 0 (2 * Real.pi) = 0 := by
    simp [rmod]
  have hmx : rmod (0 + (17 / 10) * Real.pi) (2 * Real.pi) = (17 / 10) * Real.pi := by
    rw [zero_add]
    exact rmod_eq_self _ _ (by positivity) (by nlinarith)
  simp only [softClamp, hm0, hmx]
  rw [if_pos (by positivity), if_neg (lt_irrefl 0),
    if_neg (not_lt.2 (le_of_lt (by positivity)))]

/-- Key collapse fact: a node with target radius 0 whose sector is
`(0, 1.7π)` and whose cross fraction is 0 is mapped to the origin by every
collision pass, regardless of the incoming positions: either the radial
clamp scales its position by `0/r`, or its position already has radius 0. -/
theorem collisionBody_origin_of_radius_zero (ctx : LayoutCtx) (xi : ℕ → ℝ)
    (pos : ℕ → ℝ × ℝ) (n : ℕ) (c : ℤ)
    (hrad : ctx.radius n = 0) (hprim : ctx.primary n = some c)
    (hba : ctx.baseAngle.lookup c = some 0)
    (hsp : ctx.angleSpan.lookup c = some ((17 / 10) * Real.pi))
    (hcf : crossFracR ctx n = 0) :
    collisionBody ctx xi pos n = (0, 0) := by
  simp only [collisionBody, hrad, hprim, hba, hsp, hcf, zero_mul, zero_div]
  by_cases hr : 0 < Real.sqrt
      (((pos n).1 + (repulsionSum ctx pos n).1 * (8 / 100)) ^ 2 +
        ((pos n).2 + (repulsionSum ctx pos n).2 * (8 / 100)) ^ 2)
  · rw [if_pos hr, if_neg (not_lt.2 (Real.sqrt_nonneg _)), if_pos hr]
    rw [if_neg (by norm_num : ¬ (1 / 2 : ℝ) < 0)]
    rw [mul_zero, mul_zero, atan2_zero_zero, softClamp_zero]
    norm_num
  · rw [if_neg hr]
    have h0 : Real.sqrt
        (((pos n).1 + (repulsionSum ctx pos n).1 * (8 / 100)) ^ 2 +
          ((pos n).2 + (repulsionSum ctx pos n).2 * (8 / 100)) ^ 2) = 0 :=
      le_antisymm (not_lt.1 hr) (Real.sqrt_nonneg _)
    have harg : ((pos n).1 + (repulsionSum ctx pos n).1 * (8 / 100)) ^ 2 +
        ((pos n).2 + (repulsionSum ctx pos n).2 * (8 / 100)) ^ 2 ≤ 0 :=
      Real.sqrt_eq_zero'.1 h0
    have hx : (pos n).1 + (repulsionSum ctx pos n).1 * (8 / 100) = 0 := by
      nlinarith [sq_nonneg ((pos n).1 + (repulsionSum ctx pos n).1 * (8 / 100)),
        sq_nonneg ((pos n).2 + (repulsionSum ctx pos n).2 * (8 / 100))]
    have hy : (pos n).2 + (repulsionSum ctx pos n).2 * (8 / 100) = 0 := by
      nlinarith [sq_nonneg ((pos n).1 + (repulsionSum ctx pos n).1 * (8 / 100)),
        sq_nonneg ((pos n).2 + (repulsionSum ctx pos n).2 * (8 / 100))]
    rw [hx, hy]

/-- Both nodes of `ctx2` (target radius 0) are sent to the origin by every
collision pass. -/
theorem collisionBody_ctx2_zero (xi : ℕ → ℝ) (pos : ℕ → ℝ × ℝ) (n : ℕ)
    (hn : n = 1 ∨ n = 2) : collisionBody ctx2 xi pos n = (0, 0) := by
  rcases hn with rfl | rfl
  · exact collisionBody_origin_of_radius_zero ctx2 xi pos 1 0 ctx2_radius_1
      ctx2_primary_1 rfl rfl ctx2_crossFrac_1
  · exact collisionBody_origin_of_radius_zero ctx2 xi pos 2 0 ctx2_radius_2
      ctx2_primary_2 rfl rfl ctx2_crossFrac_2

theorem collisionPass_ctx2_zero (xi : ℕ → ℝ) (pos : ℕ → ℝ × ℝ) :
    (collisionPass ctx2 xi pos) 1 = (0, 0) ∧
      (collisionPass ctx2 xi pos) 2 = (0, 0) := by
  have hm1 : (1 : ℕ) ∈ ctx2.connected := by rw [ctx2_connected]; simp
  have hm2 : (2 : ℕ) ∈ ctx2.connected := by rw [ctx2_connected]; simp
  constructor
  · rw [collisionPass, runPass_eq, if_pos hm1]
    exact collisionBody_ctx2_zero xi pos 1 (Or.inl rfl)
  · rw [collisionPass, runPass_eq, if_pos hm2]
    exact collisionBody_ctx2_zero xi pos 2 (Or.inr rfl)

theorem collisionIter_ctx2_zero (Xi : ℕ → ℕ → ℝ) :
    ∀ (k : ℕ) (pos : ℕ → ℝ × ℝ),
      (collisionIter ctx2 Xi (k + 1) pos) 1 = (0, 0) ∧
        (collisionIter ctx2 Xi (k + 1) pos) 2 = (0, 0) := by
  intro k
  induction k with
  | zero =>
      intro pos
      have he : collisionIter ctx2 Xi 1 pos = collisionPass ctx2 (Xi 0) pos := rfl
      rw [he]
      exact collisionPass_ctx2_zero (Xi 0) pos
  | succ k ih =>
      intro pos
      have he : collisionIter ctx2 Xi (k + 1 + 1) pos =
          collisionIter ctx2 Xi (k + 1) (collisionPass ctx2 (Xi (k + 1)) pos) := rfl
      rw [he]
      exact ih _

/-- C2 counterexample: both nodes of `g2` carry the maximal degree, so
their target radius is 0 and the radial clamp of the very first collision
pass scales both to the origin, where they stay (coincident positions
exert no repulsion): after the 80 passes the connected, distinct,
same-community pair sits at distance 0, far below
`0.95 × minSeparation = 0.95 × 1.3 × (10.5 + 10.5)`. -/
theorem C2_counterexample :
    (1 : ℕ) ∈ ctx2.connected ∧ (2 : ℕ) ∈ ctx2.connected ∧ (1 : ℕ) ≠ 2 ∧
      ctx2.primary 1 = ctx2.primary 2 ∧
      pairDist (collisionIter ctx2 (fun _ _ => 1 / 10) 80 posInit) 1 2 <
        (95 / 100) * minSeparation ctx2 1 2 := by
  refine ⟨by rw [ctx2_connected]; simp, by rw [ctx2_connected]; simp,
    by norm_num, by rw [ctx2_primary_1, ctx2_primary_2], ?_⟩
  have h80 := collisionIter_ctx2_zero (fun _ _ => (1 : ℝ) / 10) 79 posInit
  norm_num at h80
  rw [pairDist, h80.1, h80.2, ctx2_minSep_12]
  norm_num

/-- Magnitude of a scaled vector. -/
theorem norm_scaled (dx dy f : ℝ) (hf : 0 ≤ f) :
    Real.sqrt ((dx * f) ^ 2 + (dy * f) ^ 2) =
      f * Real.sqrt (dx * dx + dy * dy) := by
  rw [show (dx * f) ^ 2 + (dy * f) ^ 2 = f ^ 2 * (dx * dx + dy * dy) by ring,
    Real.sqrt_mul (sq_nonneg f), Real.sqrt_sq hf]

/-- C2 (amended): each collision pass applies, for every pair with
`0 < distance < minSeparation` (1.3× combined visual size for a
same-community pair, 2.0× for a different-community pair), a repulsive
displacement along the separating direction whose magnitude is exactly
`minSeparation − distance` (the whole sum is then damped by 0.08); the
claimed final guarantee `distance ≥ 0.95 × minSeparation` for all pairs
does NOT hold after the 80 passes (the radial clamp can collapse
maximum-degree nodes onto the origin, where repulsion vanishes). -/
theorem C2_theorem (ctx : LayoutCtx) (pos : ℕ → ℝ × ℝ) (n m : ℕ)
    (h1 : 0 < pairDist pos n m)
    (h2 : pairDist pos n m < minSeparation ctx n m) :
    repulsionFrom ctx pos n m =
      (((pos n).1 - (pos m).1) *
          ((minSeparation ctx n m - pairDist pos n m) / pairDist pos n m),
       ((pos n).2 - (pos m).2) *
          ((minSeparation ctx n m - pairDist pos n m) / pairDist pos n m)) ∧
    Real.sqrt ((repulsionFrom ctx pos n m).1 ^ 2 +
        (repulsionFrom ctx pos n m).2 ^ 2) =
      minSeparation ctx n m - pairDist pos n m := by
  have heq : repulsionFrom ctx pos n m =
      (((pos n).1 - (pos m).1) *
          ((minSeparation ctx n m - pairDist pos n m) / pairDist pos n m),
       ((pos n).2 - (pos m).2) *
          ((minSeparation ctx n m - pairDist pos n m) / pairDist pos n m)) := by
    simp only [repulsionFrom]
    rw [if_pos ⟨h2, h1⟩]
  refine ⟨heq, ?_⟩
  have hf : 0 ≤ (minSeparation ctx n m - pairDist pos n m) / pairDist pos n m :=
    div_nonneg (by linarith) (le_of_lt h1)
  rw [heq, norm_scaled _ _ _ hf,
    show Real.sqrt (((pos n).1 - (pos m).1) * ((pos n).1 - (pos m).1) +
        ((pos n).2 - (pos m).2) * ((pos n).2 - (pos m).2)) =
      pairDist pos n m from rfl,
    div_mul_cancel₀ _ (ne_of_gt h1)]

theorem pairDist_posW_12 : pairDist posW 1 2 = 5 := by
  have h : ((posW 1).1 - (posW 2).1) * ((posW 1).1 - (posW 2).1) +
      ((posW 1).2 - (posW 2).2) * ((posW 1).2 - (posW 2).2) = 5 ^ 2 := by
    simp only [posW]
    norm_num
  rw [pairDist, h, Real.sqrt_sq (by norm_num : (0 : ℝ) ≤ 5)]

/-- C2 witness: the overlapping same-community pair at distance 5 receives
a displacement of magnitude `27.3 − 5`. -/
theorem C2_witness :
    Real.sqrt ((repulsionFrom ctx2 posW 1 2).1 ^ 2 +
        (repulsionFrom ctx2 posW 1 2).2 ^ 2) =
      minSeparation ctx2 1 2 - pairDist posW 1 2 :=
  (C2_theorem ctx2 posW 1 2
    (by rw [pairDist_posW_12]; norm_num)
    (by rw [pairDist_posW_12, ctx2_minSep_12]; norm_num)).2

/-- C10: the repulsion term divides by the pairwise distance only under the
guard `dist > 0`, so a pair of coincident nodes exerts no repulsion on each
other (first conjunct, for every context and configuration); consequently
the two connected nodes of `ctx2`, both starting at the same position
`(0, 0)`, remain coincident through every number of collision passes —
in particular through all 80 (second conjunct). -/
theorem C10_theorem :
    (∀ (ctx : LayoutCtx) (pos : ℕ → ℝ × ℝ) (n m : ℕ), pos n = pos m →
        repulsionFrom ctx pos n m = (0, 0)) ∧
    (∀ (Xi : ℕ → ℕ → ℝ) (k : ℕ),
        collisionIter ctx2 Xi k (fun _ => ((0 : ℝ), (0 : ℝ))) 1 =
          collisionIter ctx2 Xi k (fun _ => ((0 : ℝ), (0 : ℝ))) 2) := by
  constructor
  · intro ctx pos n m h
    have hd : pairDist pos n m = 0 := by
      rw [pairDist, h]
      simp
    simp only [repulsionFrom, hd]
    rw [if_neg]
    intro hc
    exact lt_irrefl 0 hc.2
  · intro Xi k
    cases k with
    | zero => rfl
    | succ k =>
        have h := collisionIter_ctx2_zero Xi k (fun _ => ((0 : ℝ), (0 : ℝ)))
        rw [h.1, h.2]

/-- C10 witness: the zero-force fact evaluated on `ctx2` with both nodes at
the origin. -/
theorem C10_witness :
    repulsionFrom ctx2 (fun _ => ((0 : ℝ), (0 : ℝ))) 1 2 = (0, 0) :=
  C10_theorem.1 ctx2 (fun _ => ((0 : ℝ), (0 : ℝ))) 1 2 rfl

/-- C9 witness: one collision pass over the two processing orders of
`ctx2`'s nodes gives the same result. -/
theorem C9_witness :
    runPass (collisionBody ctx2 (fun _ => 1 / 10)) [1, 2] posInit 1 =
      runPass (collisionBody ctx2 (fun _ => 1 / 10)) [2, 1] posInit 1 :=
  C9_theorem.2.2.1 ctx2 (fun _ => 1 / 10) posInit [1, 2] [2, 1]
    (List.Perm.swap 2 1 []) 1
